import Mathlib

/-!
# Verification of the weggli-ruleset rule compilation and matching engine

Shallow embedding of the core of `src/rule.rs` and `src/matcher.rs`:
the rule/checker data model, the `can_match` identifier pre-filter, the
`check_match` dedup filters (`unique`, `limit`), regex-constraint parsing
(`build_regex_mapping`), checker-name validation, `CheckerLanguage`
deserialization, and the `RuleMatcher` matching orchestration.

External collaborators (tree-sitter parsing, the weggli structural query
engine, the regex compiler) are modelled as oracle functions: a parser is a
function `String → Option Tree`, a compiled pattern (`QueryTree`) is a
function from a tree and source to a list of `QueryResult`s, and regex
compilation success is a predicate on the raw regex text.  The logic under
verification — everything this repository adds on top of those oracles — is
translated operationally from the Rust source.
-/

namespace WeggliRuleset

/-- Stand-in for `tree_sitter::Tree`; the engine only threads it through. -/
structure Tree where
  root : Nat
deriving Repr, DecidableEq

/-- Embedding of `weggli::result::QueryResult` as the matcher observes it:
`vars` models the captured-variable map (`m.vars`), where the second
component is what `m.value(k, source)` returns for that key, and
`start_offset` models `m.start_offset()`. -/
structure QueryResult where
  vars : List (String × Option String)
  start_offset : Nat
deriving Repr, DecidableEq

/-- `QueryResult::value(&self, k, source)`: lookup of a captured variable. -/
def QueryResult.value (m : QueryResult) (k : String) : Option String :=
  (m.vars.lookup k).join

/-- The value stream `m.vars.keys().filter_map(|k| m.value(k, &source))`
used by `Checker::check_match`'s `unique` filter (rule.rs:337-339). -/
def QueryResult.capturedValues (m : QueryResult) : List String :=
  (m.vars.map Prod.fst).filterMap m.value

/-- Embedding of `weggli::query::QueryTree`: a compiled structural pattern,
opaque to this layer except for `matches(tree.root_node(), source)`
(`matches` is a Lean keyword, hence the field name `run`). -/
structure QueryTree where
  run : Tree → String → List QueryResult

/-- `Severity` (rule.rs:156-163): ordered enumeration, default `None`. -/
inductive Severity where
  | none
  | low
  | medium
  | high
  | critical
deriving Repr, DecidableEq, Ord

instance : Inhabited Severity := ⟨Severity.none⟩

/-- `CheckerLanguage` (rule.rs:270-276). -/
inductive CheckerLanguage where
  | C
  | Cplusplus
deriving Repr, DecidableEq

instance : Inhabited CheckerLanguage := ⟨CheckerLanguage.C⟩

/-- Embedding of the serde-derived deserializer for `CheckerLanguage`
(rule.rs:269-276).  The derive declares, in order:
variant `C` with `rename = "c", alias = "C++"` and variant `Cplusplus`
with `rename = "c++", alias = "C++"`.  The generated string match tries
the arms in declaration order, first match wins, so the duplicate
`"C++"` arm on `Cplusplus` is unreachable. -/
def CheckerLanguage.deserialize (s : String) : Option CheckerLanguage :=
  if s = "c" then some .C
  else if s = "C++" then some .C
  else if s = "c++" then some .Cplusplus
  else none

/-- The `language` field of a check (`CheckerT.language`, rule.rs:387-388)
carries `#[serde(default)]`: an absent field takes
`CheckerLanguage::default()`, which is `C`. -/
def checkerLanguageField (field : Option String) : Option CheckerLanguage :=
  match field with
  | none => some CheckerLanguage.C
  | some s => CheckerLanguage.deserialize s

/-- Bool-valued substring search: `memmem::find(hay, needle).is_some()`
(rule.rs:325), over the character list of the strings. -/
def occursIn (needle : List Char) (hay : List Char) : Bool :=
  needle.isPrefixOf hay ||
    match hay with
    | [] => false
    | _ :: rest => occursIn needle rest

/-- `Checker` (rule.rs:288-295).  The compiled pattern is an oracle. -/
structure Checker where
  name : String
  language : CheckerLanguage
  pattern : QueryTree
  identifiers : List String
  limit : Bool
  unique : Bool

instance : Inhabited Checker :=
  ⟨{ name := "", language := .C, pattern := ⟨fun _ _ => []⟩,
     identifiers := [], limit := false, unique := false }⟩

/-- `Checker::can_match` (rule.rs:322-326): every required literal
identifier must occur as a substring of the source. -/
def Checker.can_match (c : Checker) (source : String) : Bool :=
  c.identifiers.all fun ident => occursIn ident.data source.data

/-- The `unique` filter's inner test (rule.rs:334-342).  The Rust closure
creates a **fresh** `FxHashSet` each time it is called — once per candidate
match — and folds `seen.insert` over the match's captured values with
`Iterator::all` (short-circuiting).  So it tests that the candidate's own
captured values are pairwise distinct; no state survives between matches. -/
def allInsertFresh (seen : List String) : List String → Bool
  | [] => true
  | x :: xs => if seen.contains x then false else allInsertFresh (x :: seen) xs

/-- `check_unique` (rule.rs:334-342): `!self.unique || { fresh set … }`. -/
def Checker.check_unique (c : Checker) (m : QueryResult) : Bool :=
  !c.unique || allInsertFresh [] m.capturedValues

/-- The filtering loop of `Checker::check_match` (rule.rs:344-350).
`skip` models the `skip_set` shared across the whole stream by
`check_limit`; the Rust filter is `check_unique(v) && check_limit(v)`, so
when `check_unique` fails the (short-circuited) `check_limit` does not
record the offset, and when `limit` is false `skip_set.insert` is never
reached (`!self.limit ||` short-circuits). -/
def checkMatchGo (c : Checker) (skip : List Nat) :
    List QueryResult → List QueryResult
  | [] => []
  | m :: ms =>
    if c.check_unique m then
      if !c.limit then m :: checkMatchGo c skip ms
      else if skip.contains m.start_offset then checkMatchGo c skip ms
      else m :: checkMatchGo c (m.start_offset :: skip) ms
    else checkMatchGo c skip ms

/-- `Checker::check_match` (rule.rs:328-351): run the structural pattern,
return early on no matches, else apply the `unique`/`limit` filters. -/
def Checker.check_match (c : Checker) (tree : Tree) (source : String) :
    List QueryResult :=
  let results := c.pattern.run tree source
  if results.isEmpty then [] else checkMatchGo c [] results

/-- `Rule` (rule.rs:165-172). -/
structure Rule where
  id : String
  author : String
  description : String
  severity : Severity
  tags : List String
  checks : List Checker

/-- `RuleSet` (rule.rs:60-63): provenance key ↦ shared rule.  The Rust
`FxHashMap` iterates in an unspecified but fixed order; an association
list in that iteration order models it. -/
structure RuleSet where
  rules : List (String × Rule)

/-- `RuleSet::viable_checkers` (rule.rs:125-141): for each rule, the
enumerated checkers passing `can_match`, flattened. -/
def RuleSet.viable_checkers (rs : RuleSet) (source : String) :
    List (Rule × Nat × Checker) :=
  (rs.rules.map fun pr =>
    pr.2.checks.enum.filterMap fun ic =>
      if ic.2.can_match source then some (pr.2, ic.1, ic.2) else none).flatten

/-- The viable-checker enumeration as consumed by `RuleMatcher::matches_with`
(matcher.rs:154-156), which destructures a rule identifier alongside the
`(rule, checker index, checker)` triple of `viable_checkers`; the rule
identifier is the rule's position in the ruleset's iteration order. -/
def RuleSet.viable_checkers_enum (rs : RuleSet) (source : String) :
    List (Nat × Rule × Nat × Checker) :=
  (rs.rules.enum.map fun rpr =>
    rpr.2.2.checks.enum.filterMap fun ic =>
      if ic.2.can_match source then some (rpr.1, rpr.2.2, ic.1, ic.2)
      else none).flatten

/-- `RuleError` (rule.rs:20-36), reduced to the constructors the verified
claims touch; payloads the claims never inspect are collapsed to `String`. -/
inductive RuleError where
  | NoChecks
  | NoId
  | MultipleChecksWithSameName
  | Other (msg : String)
deriving Repr, DecidableEq

/-- `RegexError` (rule.rs:52-58).  `InvalidRegex` carries the raw regex
text whose compilation failed, standing in for the engine diagnostic. -/
inductive RegexError where
  | InvalidFormat (entry : String)
  | InvalidRegex (rawRegex : String)
deriving Repr, DecidableEq

/-- `CheckError` (rule.rs:38-50). -/
inductive CheckError where
  | NoCheckName
  | NoCheckPatterns
  | InvalidQueryVariable (v : String)
  | Pattern (msg : String)
  | Regex (e : RegexError)
deriving Repr, DecidableEq

/-- `RuleMatcherError` (matcher.rs:84-90). -/
inductive RuleMatcherError where
  | Parser (msg : String)
  | Rules (e : RuleError)
deriving Repr, DecidableEq

/-- `RuleMatch` (matcher.rs:17-23): owning rule, the rule/checker indices
recorded by the matching pass, the shared scanned source, and the
structural result. -/
structure RuleMatch where
  rule : Rule
  rule_id : Nat
  checker_id : Nat
  source : String
  result : QueryResult

/-- The getter `RuleMatch::rule_id` (matcher.rs:30-32). -/
def RuleMatch.rule_id_get (m : RuleMatch) : Nat :=
  m.rule_id

/-- The getter `RuleMatch::checker_id` (matcher.rs:34-36).  Note the Rust
body returns `self.rule_id`, not `self.checker_id`. -/
def RuleMatch.checker_id_get (m : RuleMatch) : Nat :=
  m.rule_id

/-- The getter `RuleMatch::checker` (matcher.rs:38-40):
`self.rule().checks()[self.checker_id]` (indexing by the stored field). -/
def RuleMatch.checker (m : RuleMatch) : Checker :=
  m.rule.checks.getD m.checker_id default

/-- `RuleMatcher` (matcher.rs:11-15).  The two tree-sitter parsers are
modelled as parse functions: `Parser::parse(source, None)` passes no old
tree, so its outcome depends only on the source text and the grammar, and
the parser's internal mutable state is not observable through this API. -/
structure RuleMatcher where
  rules : RuleSet
  c_parse : String → Option Tree
  cxx_parse : String → Option Tree

/-- `RuleMatcher::matches_with` (matcher.rs:128-172).  State passing makes
the `&mut self` explicit: the returned matcher is the post-call receiver
(no field is ever reassigned by the Rust body). -/
def RuleMatcher.matches_with (m : RuleMatcher) (source : String)
    (is_cxx : Bool) : Except RuleMatcherError (List RuleMatch) × RuleMatcher :=
  let checkers := m.rules.viable_checkers_enum source
  if checkers.isEmpty then (.ok [], m)
  else
    let tree := if is_cxx then m.cxx_parse source else m.c_parse source
    match tree with
    | none => (.ok [], m)
    | some tree =>
      let results := checkers.flatMap fun entry =>
        (entry.2.2.2.check_match tree source).map fun result =>
          { rule := entry.2.1, rule_id := entry.1, checker_id := entry.2.2.1,
            source := source, result := result : RuleMatch }
      (.ok results, m)

/-- `RuleMatcher::matches` (matcher.rs:124-126): delegates to
`matches_with(source, true)`. -/
def RuleMatcher.matches (m : RuleMatcher) (source : String) :
    Except RuleMatcherError (List RuleMatch) × RuleMatcher :=
  m.matches_with source true

/-- The raw deserialized check (`CheckerT`, rule.rs:383-396), before
validation and compilation.  `OneOrMany<String>` for the regex field is
already collapsed to a list, as `build_regex_mapping` does with
`regexes.map(Vec::from)` (rule.rs:425). -/
structure CheckerT where
  name : String
  language : CheckerLanguage
  pattern : String
  regexes : Option (List String)
  limit : Bool
  unique : Bool
deriving Repr, DecidableEq

/-- `default_check_name` (rule.rs:398-400). -/
def default_check_name : String :=
  "default"

/-- The serde treatment of the `name` field
(`#[serde(default = "default_check_name")]`, rule.rs:385-386): an absent
field is filled with `default_check_name()`. -/
def deserializeCheckName (field : Option String) : String :=
  field.getD default_check_name

/-- `validate_checker` (rule.rs:402-408): reject an empty name. -/
def validate_checker (c : CheckerT) : Except CheckError CheckerT :=
  if c.name.isEmpty then .error .NoCheckName else .ok c

/-- `str::split_once(sep)`: split at the first occurrence of `sep`,
`none` when `sep` is absent (used at rule.rs:430-432). -/
def splitOnce (sep : Char) : List Char → Option (List Char × List Char)
  | [] => none
  | c :: cs =>
    if c = sep then some ([], cs)
    else (splitOnce sep cs).map fun pr => (c :: pr.1, pr.2)

/-- `str::trim`: drop whitespace from both ends, over the character
list (Rust trims by `char::is_whitespace`; `Char.isWhitespace` is its
stand-in here). -/
def trimChars (l : List Char) : List Char :=
  ((l.dropWhile Char.isWhitespace).reverse.dropWhile Char.isWhitespace).reverse

/-- The loop body of `build_regex_mapping` (rule.rs:429-452) for one
`"var=regex"` entry.  `compileOk` is the regex-compiler oracle
(`Regex::new` succeeds on this text); a compiled regex is represented by
its raw text.  The Rust string operations are modelled on the character
list: `starts_with('$')` is a `head?` test, `ends_with('!')` a
`getLast?` test, and `pop` is `dropLast`.  Returns the map entry
`(normalised_var, (negative, regex))` or the error the Rust `?` would
propagate. -/
def parseRegexEntry (compileOk : String → Bool) (r : String) :
    Except CheckError (String × Bool × String) :=
  match splitOnce '=' r.data with
  | none => .error (.Regex (.InvalidFormat r))
  | some pr =>
    let var := trimChars pr.1
    let raw_regex := String.mk (trimChars pr.2)
    let normalised_var := if var.head? == some '$' then var else '$' :: var
    let negative := normalised_var.getLast? == some '!'
    let normalised_var :=
      if negative then normalised_var.dropLast else normalised_var
    if compileOk raw_regex then
      .ok (String.mk normalised_var, negative, raw_regex)
    else .error (.Regex (.InvalidRegex raw_regex))

/-- `HashMap::insert` on the association-list model of the constraint map:
replaces any previous binding of the key (last writer wins). -/
def mapInsert (m : List (String × Bool × String)) (k : String)
    (v : Bool × String) : List (String × Bool × String) :=
  m.filter (fun kv => kv.1 ≠ k) ++ [(k, v)]

/-- The entry loop of `build_regex_mapping` (rule.rs:429-452): parse each
entry in order, propagating the first error, inserting each parsed
constraint into the accumulated map. -/
def buildRegexMappingGo (compileOk : String → Bool)
    (acc : List (String × Bool × String)) :
    List String → Except CheckError (List (String × Bool × String))
  | [] => .ok acc
  | r :: rs =>
    match parseRegexEntry compileOk r with
    | .error e => .error e
    | .ok entry => buildRegexMappingGo compileOk
        (mapInsert acc entry.1 entry.2) rs

/-- `build_regex_mapping` (rule.rs:422-455): an absent regex field yields
an empty map; otherwise fold the entries. -/
def build_regex_mapping (compileOk : String → Bool)
    (regexes : Option (List String)) :
    Except CheckError (List (String × Bool × String)) :=
  match regexes with
  | none => .ok []
  | some rs => buildRegexMappingGo compileOk [] rs

/-- Modelled from the spec (§4.6, §8): the `unique` dedup policy as the
design document states it — one running set of captured values shared
across the whole result stream; a candidate is kept iff at least one of
its captured values is novel, and a kept match's values are added to the
running set.  This is the comparison point for the behaviour of
`Checker::check_match`'s `check_unique`, which instead builds a fresh set
per candidate. -/
def specUniqueFilter (seen : List String) :
    List QueryResult → List QueryResult
  | [] => []
  | m :: ms =>
    let vals := m.capturedValues
    if vals.any (fun v => !seen.contains v) then
      m :: specUniqueFilter (seen ++ vals) ms
    else specUniqueFilter seen ms

/-- The `limit` policy as the spec states it (§4.6, §8): at most one match
per distinct start byte offset survives, first-seen wins, order
preserved. -/
def firstPerOffset (seen : List Nat) : List QueryResult → List QueryResult
  | [] => []
  | m :: ms =>
    if seen.contains m.start_offset then firstPerOffset seen ms
    else m :: firstPerOffset (m.start_offset :: seen) ms

/-- Decidable equality for `Except` results, for evaluating concrete
validation and regex-mapping outcomes. -/
instance {e a : Type} [DecidableEq e] [DecidableEq a] :
    DecidableEq (Except e a) := fun x y =>
  match x, y with
  | .ok u, .ok v =>
    if h : u = v then isTrue (by rw [h]) else isFalse (by simp [h])
  | .ok _, .error _ => isFalse (by simp)
  | .error _, .ok _ => isFalse (by simp)
  | .error u, .error v =>
    if h : u = v then isTrue (by rw [h]) else isFalse (by simp [h])

/-! ## Concrete fixtures for the witness and counterexample theorems -/

/-- Synthetic structural match binding `{x:"a"}` (spec §8). -/
def qC1a : QueryResult := { vars := [("x", some "a")], start_offset := 0 }

/-- Synthetic structural match binding `{x:"a"}` again. -/
def qC1b : QueryResult := { vars := [("x", some "a")], start_offset := 1 }

/-- Synthetic structural match binding `{x:"b", y:"a"}`. -/
def qC1c : QueryResult :=
  { vars := [("x", some "b"), ("y", some "a")], start_offset := 2 }

/-- The synthetic result stream of spec §8's unique-dedup property. -/
def streamC1 : List QueryResult := [qC1a, qC1b, qC1c]

/-- A checker with `unique = true` whose pattern delivers `streamC1`. -/
def checkerUnique : Checker :=
  { name := "u", language := .C, pattern := ⟨fun _ _ => streamC1⟩,
    identifiers := [], limit := false, unique := true }

/-- Structural matches with start offsets `10, 10, 20` (spec §8). -/
def qOff10a : QueryResult := { vars := [("x", some "p")], start_offset := 10 }

def qOff10b : QueryResult := { vars := [("x", some "q")], start_offset := 10 }

def qOff20 : QueryResult := { vars := [("x", some "r")], start_offset := 20 }

def streamLimit : List QueryResult := [qOff10a, qOff10b, qOff20]

/-- A checker with `limit = true` whose pattern delivers `streamLimit`. -/
def checkerLimit : Checker :=
  { name := "l", language := .C, pattern := ⟨fun _ _ => streamLimit⟩,
    identifiers := [], limit := true, unique := false }

/-- An arbitrary parse tree used by the concrete scenarios. -/
def tree0 : Tree := ⟨0⟩

/-- A checker that fires no structural match. -/
def checkerSilent : Checker :=
  { name := "first", language := .C, pattern := ⟨fun _ _ => []⟩,
    identifiers := [], limit := false, unique := false }

/-- The structural hit produced by the second checker of `ruleTwoChecks`. -/
def qHit : QueryResult := { vars := [], start_offset := 5 }

/-- A checker (index 1 in `ruleTwoChecks`) that fires exactly once. -/
def checkerHit : Checker :=
  { name := "second", language := .C, pattern := ⟨fun _ _ => [qHit]⟩,
    identifiers := [], limit := false, unique := false }

/-- A rule with two checkers, only the second of which fires. -/
def ruleTwoChecks : Rule :=
  { id := "two-checks", author := "", description := "",
    severity := .none, tags := [], checks := [checkerSilent, checkerHit] }

/-- A matcher over `ruleTwoChecks` whose parsers always produce a tree. -/
def matcherTwoChecks : RuleMatcher :=
  { rules := ⟨[("default", ruleTwoChecks)]⟩,
    c_parse := fun _ => some tree0, cxx_parse := fun _ => some tree0 }

/-- The single `RuleMatch` produced by `matcherTwoChecks` on any source:
rule index 0, checker index 1. -/
def rmTwoChecks : RuleMatch :=
  { rule := ruleTwoChecks, rule_id := 0, checker_id := 1,
    source := "src", result := qHit }

/-- A checker requiring an identifier that a candidate source may lack. -/
def checkerIdentGets : Checker :=
  { name := "gets", language := .C, pattern := ⟨fun _ _ => [qHit]⟩,
    identifiers := ["gets"], limit := false, unique := false }

def ruleIdentGets : Rule :=
  { id := "ident-gets", author := "", description := "",
    severity := .none, tags := [], checks := [checkerIdentGets] }

def rulesetIdentGets : RuleSet := ⟨[("default", ruleIdentGets)]⟩

/-- A matcher with an empty rule set: no checker is ever viable. -/
def matcherNoRules : RuleMatcher :=
  { rules := ⟨[]⟩, c_parse := fun _ => some tree0,
    cxx_parse := fun _ => some tree0 }

/-- A matcher with one always-viable checker but parsers that always fail
(unparseable input). -/
def matcherParseFail : RuleMatcher :=
  { rules := ⟨[("default", ruleTwoChecks)]⟩,
    c_parse := fun _ => none, cxx_parse := fun _ => none }

/-- The deserialized check of a rule whose `name` field is absent: serde
fills it with `default_check_name()`. -/
def checkerTNoName : CheckerT :=
  { name := deserializeCheckName none, language := .C,
    pattern := "\x7b $func(); \x7d", regexes := none,
    limit := false, unique := false }

/-- A regex-compiler oracle that accepts every regex text. -/
def compileAlwaysOk : String → Bool := fun _ => true

/-! ## Helper lemmas -/

theorem occursIn_iff (needle : List Char) :
    ∀ hay : List Char, occursIn needle hay = true ↔ needle <:+: hay := by
  intro hay
  induction hay with
  | nil =>
    simp only [occursIn, Bool.or_false, List.isPrefixOf_iff_prefix,
      List.infix_nil]
    exact ⟨fun h => List.prefix_nil.mp h, fun h => h ▸ List.nil_prefix⟩
  | cons c rest ih =>
    simp only [occursIn, Bool.or_eq_true, List.isPrefixOf_iff_prefix, ih,
      List.infix_cons_iff]

theorem splitOnce_eq_none_iff (sep : Char) :
    ∀ l : List Char, splitOnce sep l = none ↔ sep ∉ l := by
  intro l
  induction l with
  | nil =>
    constructor
    · intro _; exact List.not_mem_nil sep
    · intro _; rfl
  | cons c cs ih =>
    show (if c = sep then some ([], cs)
      else (splitOnce sep cs).map fun pr => (c :: pr.1, pr.2)) = none ↔ _
    by_cases hc : c = sep
    · rw [if_pos hc]
      constructor
      · intro h; cases h
      · intro hnot
        exact absurd (by rw [hc]; exact List.mem_cons_self sep cs) hnot
    · rw [if_neg hc]
      cases hco : splitOnce sep cs with
      | none =>
        constructor
        · intro _ hmem
          rcases List.mem_cons.mp hmem with h | h
          · exact hc h.symm
          · exact (ih.mp hco) h
        · intro _; rfl
      | some pr =>
        constructor
        · intro h; simp at h
        · intro hnot
          have hcs : sep ∉ cs := fun h => hnot (List.mem_cons.mpr (Or.inr h))
          exact absurd (hco.symm.trans (ih.mpr hcs)) (by simp)

theorem splitOnce_first (sep : Char) :
    ∀ v rest : List Char, sep ∉ v →
      splitOnce sep (v ++ sep :: rest) = some (v, rest) := by
  intro v
  induction v with
  | nil =>
    intro rest _
    show (if sep = sep then some ([], rest) else _) = some ([], rest)
    rw [if_pos rfl]
  | cons c cs ih =>
    intro rest hnot
    have hc : ¬c = sep := fun h => hnot (by simp [h])
    have hcs : sep ∉ cs := fun h => hnot (List.mem_cons_of_mem _ h)
    show (if c = sep then some ([], cs ++ sep :: rest)
      else (splitOnce sep (cs ++ sep :: rest)).map
        fun pr => (c :: pr.1, pr.2)) = some (c :: cs, rest)
    rw [if_neg hc, ih rest hcs]
    rfl

theorem checkMatchGo_sublist (c : Checker) :
    ∀ (skip : List Nat) (ms : List QueryResult),
      (checkMatchGo c skip ms).Sublist ms := by
  intro skip ms
  induction ms generalizing skip with
  | nil => exact List.Sublist.refl []
  | cons m ms ih =>
    simp only [checkMatchGo]
    by_cases hu : c.check_unique m
    · simp only [hu, if_true]
      by_cases hl : !c.limit
      · simp only [hl, if_true]
        exact (ih skip).cons₂ m
      · simp only [hl, if_false]
        by_cases hs : skip.contains m.start_offset
        · simp only [hs, if_true]
          exact (ih skip).cons m
        · simp only [hs, if_false]
          exact (ih (m.start_offset :: skip)).cons₂ m
    · simp only [hu, if_false]
      exact (ih skip).cons m

theorem checkMatchGo_limit_invariant (c : Checker) (hlim : c.limit = true) :
    ∀ (ms : List QueryResult) (skip : List Nat),
      ((checkMatchGo c skip ms).map QueryResult.start_offset).Nodup ∧
      ∀ x ∈ (checkMatchGo c skip ms).map QueryResult.start_offset,
        skip.contains x = false := by
  intro ms
  induction ms with
  | nil => intro skip; simp [checkMatchGo]
  | cons m ms ih =>
    intro skip
    cases hu : c.check_unique m with
    | false =>
      simp only [checkMatchGo, hu, Bool.false_eq_true, if_false]
      exact ih skip
    | true =>
      cases hs : skip.contains m.start_offset with
      | true =>
        simp only [checkMatchGo, hu, hlim, hs, Bool.not_true,
          Bool.false_eq_true, if_false, if_true]
        exact ih skip
      | false =>
        simp only [checkMatchGo, hu, hlim, hs, Bool.not_true,
          Bool.false_eq_true, if_false, if_true, List.map_cons,
          List.nodup_cons]
        obtain ⟨hnodup, hdisj⟩ := ih (m.start_offset :: skip)
        refine ⟨⟨fun hmem => ?_, hnodup⟩, fun x hx => ?_⟩
        · have := hdisj _ hmem
          simp [List.contains_cons] at this
        · rcases List.mem_cons.mp hx with rfl | hx
          · exact hs
          · have := hdisj _ hx
            simp only [List.contains_cons, Bool.or_eq_false_iff] at this
            exact this.2

theorem checkMatchGo_limit_firstPerOffset (c : Checker)
    (hlim : c.limit = true) (huniq : c.unique = false) :
    ∀ (ms : List QueryResult) (skip : List Nat),
      checkMatchGo c skip ms = firstPerOffset skip ms := by
  intro ms
  induction ms with
  | nil => intro skip; rfl
  | cons m ms ih =>
    intro skip
    have hu : c.check_unique m = true := by
      simp [Checker.check_unique, huniq]
    cases hs : skip.contains m.start_offset with
    | true =>
      simp only [checkMatchGo, firstPerOffset, hu, hlim, hs, Bool.not_true,
        Bool.false_eq_true, if_false, if_true, ih]
    | false =>
      simp only [checkMatchGo, firstPerOffset, hu, hlim, hs, Bool.not_true,
        Bool.false_eq_true, if_false, if_true, ih]

theorem matches_with_fst (m : RuleMatcher) (s : String) (b : Bool) :
    (m.matches_with s b).1 = .ok (
      if (m.rules.viable_checkers_enum s).isEmpty then []
      else
        match (if b then m.cxx_parse s else m.c_parse s) with
        | none => []
        | some tree => (m.rules.viable_checkers_enum s).flatMap fun entry =>
            (entry.2.2.2.check_match tree s).map fun result =>
              { rule := entry.2.1, rule_id := entry.1,
                checker_id := entry.2.2.1, source := s, result := result }) := by
  unfold RuleMatcher.matches_with
  dsimp only
  split
  · rfl
  · split <;> rfl

theorem matches_with_snd (m : RuleMatcher) (s : String) (b : Bool) :
    (m.matches_with s b).2 = m := by
  unfold RuleMatcher.matches_with
  dsimp only
  split
  · rfl
  · split <;> rfl

/-! ## Claim theorems -/

/-- C1: on the synthetic stream match₁ `{x:"a"}`, match₂ `{x:"a"}`,
match₃ `{x:"b", y:"a"}`, a `unique=true` checker's `check_match` keeps
all three matches — because `check_unique` (rule.rs:334-342) creates its
`seen` set afresh inside the per-match closure, it only tests that one
match's own values are pairwise distinct.  The claim's running-set dedup
(`specUniqueFilter`, modelled from the spec) would keep exactly
`{match₁, match₃}`; the two disagree on this stream, refuting the claim
against the code. -/
theorem claim_C1_unique_dedup_diverges :
    checkerUnique.check_match tree0 "s" = streamC1 ∧
    specUniqueFilter [] streamC1 = [qC1a, qC1c] ∧
    checkerUnique.check_match tree0 "s" ≠ [qC1a, qC1c] :=
  ⟨by decide, by decide, by decide⟩

/-- C2: in a concrete pass over one rule with two checkers where only the
checker at index 1 fires, the produced `RuleMatch` records
`checker_id = 1` (the index `checker()` uses, whose name is `"second"`),
but the getter `RuleMatch::checker_id` (matcher.rs:34-36) returns
`self.rule_id`, i.e. `0` — not the index of the firing checker, refuting
the claim against the code. -/
theorem claim_C2_checker_id_diverges :
    (matcherTwoChecks.matches_with "src" true).1 = .ok [rmTwoChecks] ∧
    rmTwoChecks.checker_id = 1 ∧
    rmTwoChecks.checker.name = "second" ∧
    rmTwoChecks.checker_id_get = 0 :=
  ⟨rfl, rfl, rfl, rfl⟩

/-- C3: `can_match` is true iff every required literal identifier of the
checker occurs as a substring of the source, and a checker whose
`can_match` is false never appears in any rule set's `viable_checkers`
for that source — so it is excluded from the structural matching pass. -/
theorem claim_C3_prefilter_viability (c : Checker) (s : String) :
    (c.can_match s = true ↔
      ∀ ident ∈ c.identifiers, ident.data <:+: s.data) ∧
    (c.can_match s = false →
      ∀ (rs : RuleSet) (r : Rule) (i : Nat),
        (r, i, c) ∉ rs.viable_checkers s) := by
  constructor
  · unfold Checker.can_match
    rw [List.all_eq_true]
    constructor
    · intro h ident hmem
      exact (occursIn_iff _ _).mp (h ident hmem)
    · intro h ident hmem
      exact (occursIn_iff _ _).mpr (h ident hmem)
  · intro hfalse rs r i hmem
    unfold RuleSet.viable_checkers at hmem
    rw [List.mem_flatten] at hmem
    obtain ⟨l, hl, hml⟩ := hmem
    rw [List.mem_map] at hl
    obtain ⟨pr, hpr, rfl⟩ := hl
    rw [List.mem_filterMap] at hml
    obtain ⟨ic, hic, hsome⟩ := hml
    by_cases hc : ic.2.can_match s
    · rw [if_pos hc] at hsome
      have h2 : ic.2 = c := congrArg (fun t => t.2.2) (Option.some.inj hsome)
      rw [h2, hfalse] at hc
      exact Bool.noConfusion hc
    · rw [if_neg hc] at hsome
      exact Option.noConfusion hsome

/-- C3 witness: the checker requiring identifier `"gets"` fails the
pre-filter on source `"abc"` and is absent from the viable set. -/
theorem claim_C3_prefilter_viability_witness :
    checkerIdentGets.can_match "abc" = false ∧
    (ruleIdentGets, 0, checkerIdentGets) ∉
      rulesetIdentGets.viable_checkers "abc" :=
  ⟨by decide,
   (claim_C3_prefilter_viability checkerIdentGets "abc").2 (by decide)
     rulesetIdentGets ruleIdentGets 0⟩

/-- C4: the `CheckerLanguage` deserializer accepts `"c"` and `"c++"`, and
an absent field defaults to `C`; but, refuting the claim against the
code, the input `"C"` is rejected and the input `"C++"` deserializes to
the `C` variant — the serde alias on the `C` variant (rule.rs:271) is
`"C++"` where its own documentation and the `Cplusplus` arm show `"C"`
was meant. -/
theorem claim_C4_language_aliases_diverge :
    CheckerLanguage.deserialize "c" = some .C ∧
    CheckerLanguage.deserialize "c++" = some .Cplusplus ∧
    CheckerLanguage.deserialize "C++" = some .C ∧
    CheckerLanguage.deserialize "C" = none ∧
    checkerLanguageField none = some .C :=
  ⟨by decide, by decide, by decide, by decide, rfl⟩

/-- C5: `matches_with` always returns `Ok`; when no checker passes the
pre-filter the result is `Ok []` whatever the parsers would do (no parse
is consulted), and when the selected parser yields no tree the result is
likewise `Ok []`. -/
theorem claim_C5_scan_never_fails (m : RuleMatcher) (s : String) (b : Bool) :
    (∃ l, (m.matches_with s b).1 = .ok l) ∧
    ((m.rules.viable_checkers_enum s).isEmpty = true →
      ∀ p q : String → Option Tree,
        (({ m with c_parse := p, cxx_parse := q }).matches_with s b).1 =
          .ok []) ∧
    ((if b then m.cxx_parse s else m.c_parse s) = none →
      (m.matches_with s b).1 = .ok []) := by
  refine ⟨⟨_, matches_with_fst m s b⟩, ?_, ?_⟩
  · intro hempty p q
    simp [matches_with_fst, hempty]
  · intro hnone
    rw [matches_with_fst, hnone]
    simp

/-- C5 witness: a matcher with no rules returns `Ok []` under parsers
that always fail, and a matcher whose parsers fail on a viable source
also returns `Ok []`. -/
theorem claim_C5_scan_never_fails_witness :
    (matcherNoRules.rules.viable_checkers_enum "x").isEmpty = true ∧
    (({ matcherNoRules with
        c_parse := fun _ => none
        cxx_parse := fun _ => none }).matches_with "x" true).1 = .ok [] ∧
    ((if true then matcherParseFail.cxx_parse "y"
      else matcherParseFail.c_parse "y") = none) ∧
    (matcherParseFail.matches_with "y" true).1 = .ok [] :=
  ⟨rfl,
   (claim_C5_scan_never_fails matcherNoRules "x" true).2.1 rfl _ _,
   rfl,
   (claim_C5_scan_never_fails matcherParseFail "y" true).2.2 rfl⟩

/-- C6: for a `limit=true` checker, `check_match` returns a sublist of
the engine's stream (order preserved, never reordered), its kept start
offsets are pairwise distinct (at most one match per offset), and — when
`unique` is off — it equals the first-seen-wins `firstPerOffset`
filter. -/
theorem claim_C6_limit_dedup (c : Checker) (t : Tree) (s : String)
    (hlim : c.limit = true) :
    (c.check_match t s).Sublist (c.pattern.run t s) ∧
    ((c.check_match t s).map QueryResult.start_offset).Nodup ∧
    (c.unique = false →
      c.check_match t s = firstPerOffset [] (c.pattern.run t s)) := by
  unfold Checker.check_match
  dsimp only
  by_cases he : (c.pattern.run t s).isEmpty
  · rw [if_pos he, List.isEmpty_iff.mp he]
    exact ⟨List.nil_sublist _, List.nodup_nil, fun _ => rfl⟩
  · rw [if_neg he]
    exact ⟨checkMatchGo_sublist c [] _,
      (checkMatchGo_limit_invariant c hlim _ []).1,
      fun huniq => checkMatchGo_limit_firstPerOffset c hlim huniq _ []⟩

/-- C6 witness: on the stream with start offsets `10, 10, 20`, the
`limit=true` checker keeps the first offset-10 match and the offset-20
match, dropping the second offset-10 match. -/
theorem claim_C6_limit_dedup_witness :
    checkerLimit.limit = true ∧
    checkerLimit.check_match tree0 "s6" = [qOff10a, qOff20] :=
  ⟨rfl, ((claim_C6_limit_dedup checkerLimit tree0 "s6" rfl).2.2 rfl).trans
    (by decide)⟩

/-- C7 (amended): `validate_checker` fails with `NoCheckName` exactly
when the deserialized name is the empty string; an absent `name` field is
filled by serde with `default_check_name()` = `"default"`
(rule.rs:385-400) and then passes validation. -/
theorem claim_C7_empty_name_rejected :
    (∀ c : CheckerT, validate_checker c = .error .NoCheckName ↔
      c.name = "") ∧
    deserializeCheckName none = default_check_name ∧
    (∀ s, deserializeCheckName (some s) = s) ∧
    validate_checker checkerTNoName = .ok checkerTNoName := by
  refine ⟨fun c => ?_, rfl, fun s => rfl, by decide⟩
  unfold validate_checker
  by_cases h : c.name.isEmpty
  · rw [if_pos h]
    simp [(String.isEmpty_iff c.name).mp h]
  · rw [if_neg h]
    constructor
    · intro heq; cases heq
    · intro heq; exact absurd ((String.isEmpty_iff c.name).mpr heq) h

/-- C7 witness: a checker whose name is the empty string is rejected
with `NoCheckName`. -/
theorem claim_C7_empty_name_rejected_witness :
    validate_checker { checkerTNoName with name := "" } =
      .error .NoCheckName :=
  (claim_C7_empty_name_rejected.1 { checkerTNoName with name := "" }).mpr rfl

/-- C7 counterexample: a check whose `name` field is absent does not
fail — serde fills the name with `"default"` and `validate_checker`
accepts it, refuting the claim that an absent name yields
`NoCheckName`. -/
theorem claim_C7_absent_name_counterexample :
    checkerTNoName.name = "default" ∧
    validate_checker checkerTNoName = .ok checkerTNoName ∧
    validate_checker checkerTNoName ≠ .error .NoCheckName :=
  ⟨rfl, by decide, by decide⟩

/-- C8: `build_regex_mapping` yields an empty map on an absent input;
an entry with no `=` fails with `InvalidFormat` naming the entry; and an
entry `v ++ "=" ++ rx` is split at the first `=`, both sides trimmed,
the `$` sigil prepended when missing, a trailing `!` on the sigiled name
stripped to set negate, and the regex side compiled — reaching
`InvalidRegex` exactly when the compiler rejects the trimmed regex
text. -/
theorem claim_C8_regex_mapping :
    (∀ ok : String → Bool, build_regex_mapping ok none = .ok []) ∧
    (∀ (ok : String → Bool) (r : String), '=' ∉ r.data →
      build_regex_mapping ok (some [r]) =
        .error (.Regex (.InvalidFormat r))) ∧
    (∀ (ok : String → Bool) (v rx : String), '=' ∉ v.data →
      build_regex_mapping ok (some [v ++ "=" ++ rx]) =
        (let var := trimChars v.data
         let raw := String.mk (trimChars rx.data)
         let sig := if var.head? == some '$' then var else '$' :: var
         let neg := sig.getLast? == some '!'
         let nv := if neg then sig.dropLast else sig
         if ok raw then .ok [(String.mk nv, neg, raw)]
         else .error (.Regex (.InvalidRegex raw)))) := by
  refine ⟨fun ok => rfl, fun ok r h => ?_, fun ok v rx h => ?_⟩
  · have hs : splitOnce '=' r.data = none :=
      (splitOnce_eq_none_iff '=' r.data).mpr h
    simp [build_regex_mapping, buildRegexMappingGo, parseRegexEntry, hs]
  · have hdata : (v ++ "=" ++ rx).data = v.data ++ '=' :: rx.data := by
      have he : ("=" : String).data = ['='] := rfl
      rw [String.data_append, String.data_append, he, List.append_assoc]
      rfl
    have hsplit : splitOnce '=' (v ++ "=" ++ rx).data =
        some (v.data, rx.data) := by
      rw [hdata]; exact splitOnce_first '=' v.data rx.data h
    simp only [build_regex_mapping, buildRegexMappingGo, parseRegexEntry,
      hsplit]
    by_cases hok : ok (String.mk (trimChars rx.data)) = true
    · rw [if_pos hok, if_pos hok]
      rfl
    · rw [if_neg hok, if_neg hok]

/-- C8 witness: `" foo! = ^a+ "` parses to the constraint
`("$foo", negate, "^a+")` with negate set, and `"noequals"` fails with
`InvalidFormat "noequals"`. -/
theorem claim_C8_regex_mapping_witness :
    ('=' ∉ (" foo! " : String).data) ∧
    build_regex_mapping compileAlwaysOk (some [" foo! " ++ "=" ++ " ^a+ "]) =
      .ok [("$foo", true, "^a+")] ∧
    ('=' ∉ ("noequals" : String).data) ∧
    build_regex_mapping compileAlwaysOk (some ["noequals"]) =
      .error (.Regex (.InvalidFormat "noequals")) :=
  ⟨by decide,
   (claim_C8_regex_mapping.2.2 compileAlwaysOk " foo! " " ^a+ "
     (by decide)).trans (by decide),
   by decide,
   claim_C8_regex_mapping.2.1 compileAlwaysOk "noequals" (by decide)⟩

/-- C9: a matching pass leaves the matcher (in particular its rule set)
unchanged, and running the same pass again from the returned state yields
the identical result list — matching is deterministic and idempotent. -/
theorem claim_C9_idempotent (m : RuleMatcher) (s : String) (b : Bool) :
    (m.matches_with s b).2 = m ∧
    ((m.matches_with s b).2.matches_with s b).1 = (m.matches_with s b).1 ∧
    (m.matches_with s b).2.rules = m.rules := by
  have h2 := matches_with_snd m s b
  exact ⟨h2, by rw [h2], by rw [h2]⟩

/-- C10: the one-argument `matches` is exactly `matches_with source true`
(the C++ parser), and its result does not depend on the C parser at
all. -/
theorem claim_C10_matches_is_cxx (m : RuleMatcher) (s : String) :
    m.matches s = m.matches_with s true ∧
    ∀ p : String → Option Tree,
      (({ m with c_parse := p }).matches s).1 = (m.matches s).1 := by
  refine ⟨rfl, fun p => ?_⟩
  show (({ m with c_parse := p }).matches_with s true).1 =
    (m.matches_with s true).1
  rw [matches_with_fst, matches_with_fst]
  rfl

end WeggliRuleset
